import Mathlib

/-!
Verification of the voice-keyboard audio core (crates/audio) against its
natural-language specification.

The development shallowly embeds the three components the claims are about:

* `recorder.rs` (`SimpleRecorder`): the recording-session state machine with
  its capture callback (sample conversion, downmixing, peak pick, WAV write),
  `start_recording`, `stop_recording` and the idle/recording invariant.
  External effects (device negotiation, file creation, stream build/play,
  mutex/Arc outcomes, per-sample write failures) are passed in explicitly as
  environment records so that every control path of the Rust code is a path
  of the Lean function.  Samples are modelled as `Int` carrying i16 values;
  the native-format-to-i16 conversion performed by cpal's `from_sample` is
  the callback's input here, exactly as the claims quantify over "per-channel
  values after their conversion to 16-bit signed".  File paths are opaque
  identifiers (`Nat`).

* `peaks.rs` (`send_peaks`): the 10 ms peak throttle, driven by a list of
  (timestamp, sample-block) events with synthetic millisecond timestamps.

* `resample.rs` (`resample_wav_file`, `resample_channel`,
  `convert_channels`): de-interleaving, the rate-conversion dispatch (the
  band-limited sinc kernel of the external `rubato` crate is a parameter,
  which the identity-rate claims never evaluate), channel conversion,
  re-interleaving and the final 16-bit quantization.  Normalized float
  samples are modelled as `ℚ`; on the code paths the claims exercise no
  inexact float arithmetic occurs.  Out-of-bounds indexing, which panics in
  Rust, is modelled by `Option`.
-/

namespace VoiceKeyboard

/-! ## Generic list helpers used by the embedding -/

/-- Exact chunking as performed by Rust's `chunks_exact(n)`: splits the list
into consecutive sub-lists of length `n`, discarding a trailing remainder of
length `< n`.  Used by the callback's multi-channel frame loop. -/
def chunksExact {α : Type} (n : ℕ) (xs : List α) : List (List α) :=
  if _h : 0 < n ∧ n ≤ xs.length then
    xs.take n :: chunksExact n (xs.drop n)
  else []
termination_by xs.length
decreasing_by simp only [List.length_drop]; omega

/-- Every `c`-th element of a list, starting at its head. -/
def everyNth {α : Type} (c : ℕ) : List α → List α
  | [] => []
  | x :: rest => x :: everyNth c (rest.drop (c - 1))
termination_by xs => xs.length
decreasing_by simp only [List.length_drop, List.length_cons]; omega

/-! ## recorder.rs: sample conversion, downmix and peak pick -/

/-- Downmix of one multi-channel frame of already-converted i16 samples, from
`build_input_stream`: `let sum: i32 = frame.iter().map(|&s| i16::from_sample(s)
as i32).sum(); let avg = sum / channels as i32; avg.clamp(i16::MIN as i32,
i16::MAX as i32) as i16`.  Rust `i32` division truncates toward zero, which is
`Int.tdiv`; the i32 sum of at most 65535 i16 values cannot overflow, so plain
`Int` addition is exact. -/
def downmixFrame (channels : ℕ) (frame : List Int) : Int :=
  min (max (frame.sum.tdiv channels) (-32768)) 32767

/-- The sample list produced by one callback invocation for one input block,
from `build_input_stream`: mono input is converted directly (the conversion to
i16 is the identity here because the block already carries the converted
values); multi-channel input is cut into frames by `chunks_exact(channels)`
and each frame is downmixed. -/
def processBlock (channels : ℕ) (data : List Int) : List Int :=
  if channels = 1 then data
  else (chunksExact channels data).map (downmixFrame channels)

/-- Absolute value of an i16 with Rust release-profile (wrapping) semantics:
`i16::abs(-32768)` wraps back to `-32768`.  This is the key the callback's
`max_by_key(|&&x| x.abs())` actually compares in an optimized build. -/
def abs_release (x : Int) : Int :=
  if x = -32768 then -32768 else (x.natAbs : Int)

/-- Absolute value of an i16 with overflow checking, as in a Rust debug build
where `i16::abs(-32768)` panics with "attempt to negate with overflow";
`none` models the panic. -/
def abs_checked (x : Int) : Option Int :=
  if x = -32768 then none else some (x.natAbs : Int)

/-- One step of the `max_by_key` fold: a later element replaces the current
best exactly when its key is `≥` the best key (Rust's `max_by_key` returns
the last of several equally-maximal elements). -/
def peakStep (best : Option Int) (x : Int) : Option Int :=
  match best with
  | none => some x
  | some b => if abs_release b ≤ abs_release x then some x else some b

/-- Peak pick of `build_input_stream`:
`samples.iter().max_by_key(|&&x| x.abs())`. -/
def findPeak (samples : List Int) : Option Int :=
  samples.foldl peakStep none

/-! ## recorder.rs: the SimpleRecorder state machine -/

/-- Error outcomes of `start_recording` / `stop_recording` (`anyhow` messages
in the source, one constructor per distinct `return Err` site). -/
inductive RecError where
  | alreadyRecording
  | noDevice
  | configFailed
  | unsupportedRate
  | createFailed
  | unsupportedFormat
  | buildFailed
  | playFailed
  | notRecording
  | finalizeFailed
  | noOutputPath
deriving DecidableEq, Repr

/-- The fields of `SimpleRecorder`: `is_recording: Arc<AtomicBool>`,
`output_path: Option<PathBuf>`, `writer: Option<Arc<Mutex<WavWriter<..>>>>`
(modelled by the list of samples the WAV writer has accepted so far) and
`stream: Option<cpal::Stream>` (modelled by presence). -/
structure Recorder where
  is_recording : Bool
  output_path : Option Nat
  writer : Option (List Int)
  stream : Bool
deriving DecidableEq, Repr

/-- Constructor `SimpleRecorder::new()`. -/
def Recorder.new : Recorder :=
  { is_recording := false, output_path := none, writer := none, stream := false }

/-- Outcomes of the external collaborators `start_recording` consults, in
source order: device lookup, `default_input_config()`, the negotiated sample
rate, whether the negotiated sample format is one of I8/I16/I32/F32,
`WavWriter::create`, `build_input_stream`, and `stream.play()`. -/
structure StartEnv where
  device_ok : Bool
  config_ok : Bool
  sample_rate : ℕ
  format_ok : Bool
  create_ok : Bool
  build_ok : Bool
  play_ok : Bool
deriving DecidableEq, Repr

/-- Operation `SimpleRecorder::start_recording`, with each fallible external step read
from `env`.  Note the source stores `self.writer` and `self.output_path`
before it builds and plays the stream, so the three late failure exits leave
those fields set. -/
def start_recording (r : Recorder) (path : Nat) (env : StartEnv) :
    Except RecError Unit × Recorder :=
  if r.is_recording then (.error .alreadyRecording, r)
  else if !env.device_ok then (.error .noDevice, r)
  else if !env.config_ok then (.error .configFailed, r)
  else if env.sample_rate < 8000 || 192000 < env.sample_rate then
    (.error .unsupportedRate, r)
  else if !env.create_ok then (.error .createFailed, r)
  else
    let r1 : Recorder := { r with writer := some [], output_path := some path }
    if !env.format_ok then (.error .unsupportedFormat, r1)
    else if !env.build_ok then (.error .buildFailed, r1)
    else if !env.play_ok then (.error .playFailed, r1)
    else (.ok (), { r1 with stream := true, is_recording := true })

/-- Nondeterministic outcomes inside one capture-callback invocation: whether
`writer.lock()` succeeds, and the first sample index of this block at which
`writer.write_sample` fails (`none` when every write succeeds; an index `≥`
the block length also means no write fails). -/
structure CallbackEnv where
  lock_ok : Bool
  fail_at : Option ℕ
deriving DecidableEq, Repr

/-- The capture callback registered by `build_input_stream`: returns
immediately unless `is_recording`; converts/downmixes the block; (the peak is
passed to `on_peak`, an external effect with no recorder state); then writes
the samples under the writer lock, and on the first write error logs, stores
`is_recording = false` and breaks out of the write loop. -/
def input_callback (r : Recorder) (channels : ℕ) (data : List Int)
    (env : CallbackEnv) : Recorder :=
  if !r.is_recording then r
  else
    let samples := processBlock channels data
    if env.lock_ok then
      match env.fail_at with
      | some i =>
        if i < samples.length then
          { r with writer := r.writer.map (· ++ samples.take i),
                   is_recording := false }
        else { r with writer := r.writer.map (· ++ samples) }
      | none => { r with writer := r.writer.map (· ++ samples) }
    else r

/-- Outcomes of the external steps of `stop_recording`: whether
`Arc::try_unwrap(writer)` succeeds (the callback's clone is gone), whether
`writer.into_inner()` succeeds (the mutex is not poisoned), and whether
`writer.finalize()` succeeds. -/
structure StopEnv where
  arc_unique : Bool
  into_inner_ok : Bool
  finalize_ok : Bool
deriving DecidableEq, Repr

/-- Result of `stop_recording`: the returned `Result`, the recorder state
after the call, and an observation of whether `WavWriter::finalize` ran to
completion (i.e. whether the WAV header was actually finalized). -/
structure StopResult where
  result : Except RecError Nat
  state : Recorder
  finalized : Bool
deriving Repr

/-- Shared tail of `stop_recording`: `self.output_path.take().ok_or_else(..)`
followed by `Ok(output_path)`. -/
def finishStop (r : Recorder) (fin : Bool) : StopResult :=
  match r.output_path with
  | some p => ⟨.ok p, { r with output_path := none }, fin⟩
  | none => ⟨.error .noOutputPath, r, fin⟩

/-- Operation `SimpleRecorder::stop_recording`: rejects when not recording; clears the
flag; drops the stream; takes the writer and finalizes it only when both
`Arc::try_unwrap` and `into_inner` succeed (both failure cases are silently
ignored by the nested `if let Ok(..)` chain); a `finalize` error returns early
with `output_path` still set; otherwise takes and returns the path. -/
def stop_recording (r : Recorder) (env : StopEnv) : StopResult :=
  if !r.is_recording then ⟨.error .notRecording, r, false⟩
  else
    let r1 : Recorder := { r with is_recording := false, stream := false }
    match r1.writer with
    | some _ =>
      let r2 : Recorder := { r1 with writer := none }
      if env.arc_unique && env.into_inner_ok then
        if env.finalize_ok then finishStop r2 true
        else ⟨.error .finalizeFailed, r2, false⟩
      else finishStop r2 false
    | none => finishStop r1 false

/-- States of a `SimpleRecorder` reachable through any sequence of
construction, `start_recording`, capture-callback invocations and
`stop_recording`, under every possible environment outcome. -/
inductive Reachable : Recorder → Prop where
  | new : Reachable Recorder.new
  | startStep (s : Recorder) (path : Nat) (env : StartEnv) :
      Reachable s → Reachable (start_recording s path env).2
  | callbackStep (s : Recorder) (channels : ℕ) (data : List Int)
      (env : CallbackEnv) :
      Reachable s → Reachable (input_callback s channels data env)
  | stopStep (s : Recorder) (env : StopEnv) :
      Reachable s → Reachable (stop_recording s env).state

/-- States reachable when every `start_recording` and `stop_recording` along
the way returned `Ok` and no capture-callback invocation hit a write error
(equivalently, none of them cleared the recording flag). -/
inductive ReachableOk : Recorder → Prop where
  | new : ReachableOk Recorder.new
  | startStep (s : Recorder) (path : Nat) (env : StartEnv) :
      ReachableOk s → (start_recording s path env).1 = .ok () →
      ReachableOk (start_recording s path env).2
  | callbackStep (s : Recorder) (channels : ℕ) (data : List Int)
      (env : CallbackEnv) :
      ReachableOk s →
      (input_callback s channels data env).is_recording = s.is_recording →
      ReachableOk (input_callback s channels data env)
  | stopStep (s : Recorder) (env : StopEnv) (p : Nat) :
      ReachableOk s → (stop_recording s env).result = .ok p →
      ReachableOk (stop_recording s env).state

/-- The resource/state invariant claimed by the specification:
`outputTarget` and `frameSink` are both `Some` iff the state is Recording,
and `activeStream` is `Some` iff the state is Recording. -/
def stateInvariant (r : Recorder) : Prop :=
  (r.output_path.isSome && r.writer.isSome) = r.is_recording ∧
  r.stream = r.is_recording

instance (r : Recorder) : Decidable (stateInvariant r) := by
  unfold stateInvariant; infer_instance

/-! ## peaks.rs: the PeakMeter throttle -/

/-- THROTTLE_DURATION, in milliseconds. -/
def THROTTLE_MS : ℕ := 10

/-- The per-block peak fold inside `send_peaks`:
`samples.iter().fold(0, |peak, &sample| if sample > 0
{ peak.max(sample.min(i16::MAX)) } else { peak.min(sample.max(i16::MIN)) })`. -/
def current_peak (samples : List Int) : Int :=
  samples.foldl
    (fun peak sample =>
      if 0 < sample then max peak (min sample 32767)
      else min peak (max sample (-32768)))
    0

/-- The receive loop of `send_peaks`, over a list of `(timestamp, block)`
events with synthetic millisecond timestamps, carrying `last_send_time`
(`last`): a value is forwarded, and `last_send_time` reset to its timestamp,
exactly when `last_send_time.elapsed() >= THROTTLE_DURATION`; otherwise the
event is discarded.  The result is the list of forwarded
`(timestamp, peak)` calls to the callback, in order. -/
def send_peaksFrom (last : ℕ) : List (ℕ × List Int) → List (ℕ × Int)
  | [] => []
  | (t, blk) :: rest =>
    if last + THROTTLE_MS ≤ t then (t, current_peak blk) :: send_peaksFrom t rest
    else send_peaksFrom last rest

/-- Entry point of `send_peaks`: it initializes `last_send_time = Instant::now()` when the meter
starts, at timestamp `t0`, before consuming any event. -/
def send_peaks (t0 : ℕ) (events : List (ℕ × List Int)) : List (ℕ × Int) :=
  send_peaksFrom t0 events

/-! ## resample.rs: de-interleave, rate conversion, channel conversion,
re-interleave, quantization -/

/-- Channel `k` of the de-interleaving loop of `resample_wav_file`
(`for (i, &sample) ..: channel_data[i % input_channels].push(sample)`): the
loop pushes sample `i` onto channel `i % c` in order, so channel `k` receives
exactly the samples at indices `k, k + c, k + 2c, …`. -/
def channelOf {α : Type} (c k : ℕ) (xs : List α) : List α :=
  everyNth c (xs.drop k)

/-- The channel-separated buffer `channel_data` built by `resample_wav_file`:
one entry per input channel. -/
def deinterleave {α : Type} (c : ℕ) (xs : List α) : List (List α) :=
  (List.range c).map (fun k => channelOf c k xs)

/-- One frame of the re-interleaving loop of `resample_wav_file`
(`for channel in 0..target_channels { output_samples.push(
final_channels[channel][frame]) }`); `none` models the index-out-of-bounds
panic when a channel is missing or too short. -/
def frameAt {α : Type} (chans : List (List α)) (out_channels f : ℕ) :
    Option (List α) :=
  (List.range out_channels).mapM (fun c => (chans.get? c).bind (·.get? f))

/-- The re-interleaving step of `resample_wav_file`:
`let output_frames = final_channels[0].len();` (a panic — `none` — when the
buffer has no channels) followed by the frame-major push loop. -/
def interleave {α : Type} (out_channels : ℕ) (chans : List (List α)) :
    Option (List α) :=
  match chans.get? 0 with
  | none => none
  | some ch0 =>
    ((List.range ch0.length).mapM (frameAt chans out_channels)).map List.flatten

/-- Function `convert_channels` of resample.rs, arm for arm: (2,1) averages left and
right, (1,2) duplicates the mono channel, (n,1) with n > 2 averages all
channels, everything else is returned as-is.  Out-of-range indexing cannot
occur in the arms the claims exercise; `getD _ 0` stands for the `Vec` index. -/
def convert_channels (input_channels : List (List ℚ)) (target_channels : ℕ) :
    List (List ℚ) :=
  if input_channels.length = 2 ∧ target_channels = 1 then
    [(List.range ((input_channels.headD []).length)).map (fun i =>
      ((input_channels.getD 0 []).getD i 0 + (input_channels.getD 1 []).getD i 0) / 2)]
  else if input_channels.length = 1 ∧ target_channels = 2 then
    [input_channels.headD [], input_channels.headD []]
  else if 2 < input_channels.length ∧ target_channels = 1 then
    [(List.range ((input_channels.headD []).length)).map (fun i =>
      (input_channels.map (fun ch => ch.getD i 0)).sum / (input_channels.length : ℚ))]
  else input_channels

/-- Function `resample_channel` of resample.rs: returns the input unchanged when
`input_rate == output_rate`, and otherwise runs the `rubato` band-limited
sinc resampler, which is external code and therefore a parameter `sinc`. -/
def resample_channel (sinc : List ℚ → List ℚ) (input_rate output_rate : ℕ)
    (input : List ℚ) : List ℚ :=
  if input_rate = output_rate then input else sinc input

/-- The processing pipeline of `resample_wav_file` on the normalized float
samples (after the i16-to-float read and before the float-to-i16 write):
de-interleave; resample each channel only when the rates differ; convert
channels only when the counts differ; re-interleave. -/
def resample_wav_pipeline (sinc : List ℚ → List ℚ) (input_samples : List ℚ)
    (input_rate input_channels target_sample_rate target_channels : ℕ) :
    Option (List ℚ) :=
  let channel_data := deinterleave input_channels input_samples
  let resampled_channels :=
    if input_rate ≠ target_sample_rate then
      channel_data.map (resample_channel sinc input_rate target_sample_rate)
    else channel_data
  let final_channels :=
    if input_channels ≠ target_channels then
      convert_channels resampled_channels target_channels
    else resampled_channels
  interleave target_channels final_channels

/-- The final write conversion of `resample_wav_file`:
`(sample.clamp(-1.0, 1.0) * 32767.0) as i16`; the `as i16` cast truncates
toward zero. -/
def quantize16 (sample : ℚ) : Int :=
  let c : ℚ := min (max sample (-1)) 1 * 32767
  if 0 ≤ c then ⌊c⌋ else ⌈c⌉

/-- The full sample transformation of `resample_wav_file`: the float pipeline
followed by 16-bit quantization of every output sample. -/
def resample_wav_output (sinc : List ℚ → List ℚ) (input_samples : List ℚ)
    (input_rate input_channels target_sample_rate target_channels : ℕ) :
    Option (List Int) :=
  (resample_wav_pipeline sinc input_samples input_rate input_channels
      target_sample_rate target_channels).map (List.map quantize16)

/-! ## Definitions taken from the specification's words, for comparison with
the code -/

/-- Downmix as the specification's words describe it (for comparison with
`downmixFrame`): round-to-nearest of the arithmetic mean of the converted
per-channel values, clamped to the 16-bit range. -/
def spec_downmix_round (channels : ℕ) (frame : List Int) : Int :=
  min (max (round ((frame.sum : ℚ) / (channels : ℚ))) (-32768)) 32767

/-- Peak pick as the specification's words describe it (for comparison with
`findPeak`): the maximum-magnitude sample, ties broken by the first
occurrence in iteration order. -/
def specPeakFirst (samples : List Int) : Option Int :=
  samples.find? (fun x => samples.all (fun y => y.natAbs ≤ x.natAbs))

/-- Peak pick with ties broken by the last occurrence in iteration order:
the first element of the reversed block whose magnitude dominates the whole
block. -/
def specPeakLast (samples : List Int) : Option Int :=
  samples.reverse.find? (fun x => samples.all (fun y => y.natAbs ≤ x.natAbs))

/-- Peak pick with ties broken by the last occurrence, compared on the keys
`abs_release` actually computed by the callback. -/
def specPeakLastKey (samples : List Int) : Option Int :=
  samples.reverse.find? (fun x => samples.all (fun y => abs_release y ≤ abs_release x))

/-! ## Auxiliary lemmas -/

theorem chunksExact_mem {α : Type} (n : ℕ) (xs : List α) :
    ∀ f ∈ chunksExact n xs, f.length = n ∧ ∀ x ∈ f, x ∈ xs := by
  rw [chunksExact]
  split
  · rename_i h
    intro f hf
    rcases List.mem_cons.mp hf with hf | hf
    · subst hf
      refine ⟨by simp [List.length_take]; omega, fun x hx => List.mem_of_mem_take hx⟩
    · obtain ⟨h1, h2⟩ := chunksExact_mem n (xs.drop n) f hf
      exact ⟨h1, fun x hx => List.mem_of_mem_drop (h2 x hx)⟩
  · intro f hf
    simp at hf
termination_by xs.length
decreasing_by simp only [List.length_drop]; omega

theorem list_sum_bounds (lo hi : Int) :
    ∀ f : List Int, (∀ x ∈ f, lo ≤ x ∧ x ≤ hi) →
      (f.length : Int) * lo ≤ f.sum ∧ f.sum ≤ (f.length : Int) * hi := by
  intro f
  induction f with
  | nil => intro _; simp
  | cons a t ih =>
    intro h
    obtain ⟨ha1, ha2⟩ := h a (List.mem_cons_self a t)
    obtain ⟨ih1, ih2⟩ := ih (fun x hx => h x (List.mem_cons_of_mem a hx))
    simp only [List.sum_cons, List.length_cons]
    push_cast
    constructor <;> nlinarith

theorem tdiv_i16_bounds {s : Int} {N : ℕ} (hN : 0 < N)
    (h1 : -32768 * N ≤ s) (h2 : s ≤ 32767 * N) :
    -32768 ≤ s.tdiv N ∧ s.tdiv N ≤ 32767 := by
  have hN0 : (0 : Int) < (N : Int) := by exact_mod_cast hN
  have hNne : (N : Int) ≠ 0 := ne_of_gt hN0
  rcases le_or_lt 0 s with hs | hs
  · rw [Int.tdiv_eq_ediv hs (le_of_lt hN0)]
    constructor
    · exact le_trans (by norm_num) (Int.ediv_nonneg hs (le_of_lt hN0))
    · calc s / (N : Int) ≤ 32767 * N / N := Int.ediv_le_ediv hN0 h2
        _ = 32767 := Int.mul_ediv_cancel _ hNne
  · have hrw : s.tdiv N = -((-s).tdiv N) := by
      rw [← Int.neg_tdiv, neg_neg]
    rw [hrw, Int.tdiv_eq_ediv (by omega) (le_of_lt hN0)]
    constructor
    · have : (-s) / (N : Int) ≤ 32768 := by
        calc (-s) / (N : Int) ≤ 32768 * N / N := Int.ediv_le_ediv hN0 (by omega)
          _ = 32768 := Int.mul_ediv_cancel _ hNne
      omega
    · have : 0 ≤ (-s) / (N : Int) := Int.ediv_nonneg (by omega) (le_of_lt hN0)
      omega

theorem downmixFrame_eq_tdiv {channels : ℕ} {f : List Int} (hch : 0 < channels)
    (hlen : f.length = channels)
    (hr : ∀ x ∈ f, -32768 ≤ x ∧ x ≤ 32767) :
    downmixFrame channels f = f.sum.tdiv channels ∧
    -32768 ≤ f.sum.tdiv channels ∧ f.sum.tdiv channels ≤ 32767 := by
  obtain ⟨hs1, hs2⟩ := list_sum_bounds (-32768) 32767 f hr
  rw [hlen] at hs1 hs2
  have hb := tdiv_i16_bounds hch (by linarith) (by linarith)
  refine ⟨?_, hb⟩
  unfold downmixFrame
  omega

/-! ## C1: downmix of multi-channel frames -/

/-- Claim C1 (corrected): for a multi-channel block with `N ≥ 2` channels of
converted 16-bit values, each mono output sample is the truncation toward
zero of `sum / N` — not round-to-nearest — and it always lies in
`[-32768, 32767]`, so the clamp in the source never alters it. -/
theorem C1_downmix_truncated (channels : ℕ) (data : List Int)
    (hch : 2 ≤ channels)
    (hrange : ∀ x ∈ data, -32768 ≤ x ∧ x ≤ 32767) :
    processBlock channels data =
      (chunksExact channels data).map (fun f => f.sum.tdiv channels) ∧
    ∀ s ∈ processBlock channels data, -32768 ≤ s ∧ s ≤ 32767 := by
  have hne : channels ≠ 1 := by omega
  have key : ∀ f ∈ chunksExact channels data,
      downmixFrame channels f = f.sum.tdiv channels ∧
      -32768 ≤ f.sum.tdiv channels ∧ f.sum.tdiv channels ≤ 32767 := by
    intro f hf
    obtain ⟨hlen, hmem⟩ := chunksExact_mem channels data f hf
    exact downmixFrame_eq_tdiv (by omega) hlen (fun x hx => hrange x (hmem x hx))
  constructor
  · simp only [processBlock, if_neg hne]
    exact List.map_congr_left (fun f hf => (key f hf).1)
  · intro s hs
    simp only [processBlock, if_neg hne, List.mem_map] at hs
    obtain ⟨f, hf, hfs⟩ := hs
    obtain ⟨he, hb1, hb2⟩ := key f hf
    rw [← hfs, he]
    exact ⟨hb1, hb2⟩

/-- Witness for C1: a concrete stereo block. -/
theorem C1_downmix_truncated_witness :
    processBlock 2 ([1, 2] : List Int) =
      (chunksExact 2 ([1, 2] : List Int)).map (fun f => f.sum.tdiv 2) ∧
    ∀ s ∈ processBlock 2 ([1, 2] : List Int), -32768 ≤ s ∧ s ≤ 32767 :=
  C1_downmix_truncated 2 ([1, 2] : List Int) (by decide) (by decide)

/-- Counterexample for C1 as stated: on the 3-channel frame `[0, 0, 2]` the
code produces `2 / 3` truncated toward zero, i.e. `0`, while round-to-nearest
of the mean `2/3` (clamped) is `1`. -/
theorem C1_counterexample :
    downmixFrame 3 [0, 0, 2] = 0 ∧
    spec_downmix_round 3 [0, 0, 2] = 1 ∧ (0 : Int) ≠ 1 := by
  refine ⟨by decide, ?_, by decide⟩
  have hsum : (([0, 0, 2] : List Int).sum : ℚ) / ((3 : ℕ) : ℚ) = 2 / 3 := by
    norm_num
  unfold spec_downmix_round
  rw [hsum]
  have : round ((2 : ℚ) / 3) = 1 := by norm_num [round_eq]
  rw [this]
  decide

/-! ## C4: the PeakMeter 10 ms throttle -/

theorem send_peaksFrom_ge (events : List (ℕ × List Int)) :
    ∀ last : ℕ, ∀ p ∈ send_peaksFrom last events, last + THROTTLE_MS ≤ p.1 := by
  induction events with
  | nil => intro last p hp; simp [send_peaksFrom] at hp
  | cons e rest ih =>
    intro last p hp
    obtain ⟨t, blk⟩ := e
    simp only [send_peaksFrom] at hp
    split at hp
    · rename_i hle
      rcases List.mem_cons.mp hp with hp | hp
      · subst hp; exact hle
      · have := ih t p hp
        omega
    · exact ih last p hp

theorem send_peaksFrom_chain (events : List (ℕ × List Int)) :
    ∀ last : ℕ,
      List.Chain' (fun a b => a.1 + THROTTLE_MS ≤ b.1) (send_peaksFrom last events) := by
  induction events with
  | nil => intro last; simp [send_peaksFrom]
  | cons e rest ih =>
    intro last
    obtain ⟨t, blk⟩ := e
    simp only [send_peaksFrom]
    split
    · refine List.chain'_cons'.mpr ⟨?_, ih t⟩
      intro y hy
      exact send_peaksFrom_ge rest t y (List.mem_of_mem_head? hy)
    · exact ih last

/-- Claim C4 (corrected): forwarded peaks are pairwise at least 10 ms apart,
every forwarded peak is at least 10 ms after the meter's start, and the first
received value is forwarded iff it arrives at least 10 ms after the meter's
start (it is not always forwarded). -/
theorem C4_throttle (t0 : ℕ) (events : List (ℕ × List Int)) :
    List.Chain' (fun a b => a.1 + THROTTLE_MS ≤ b.1) (send_peaks t0 events) ∧
    (∀ p ∈ send_peaks t0 events, t0 + THROTTLE_MS ≤ p.1) ∧
    (∀ t blk rest, events = (t, blk) :: rest →
      ((send_peaks t0 events).head? = some (t, current_peak blk) ↔
        t0 + THROTTLE_MS ≤ t)) := by
  refine ⟨send_peaksFrom_chain events t0, send_peaksFrom_ge events t0, ?_⟩
  intro t blk rest hev
  subst hev
  simp only [send_peaks, send_peaksFrom]
  split
  · rename_i hle
    simp [hle]
  · rename_i hgt
    constructor
    · intro hhead
      exfalso
      have hmem : (t, current_peak blk) ∈ send_peaksFrom t0 rest :=
        List.mem_of_mem_head? hhead
      exact hgt (send_peaksFrom_ge rest t0 _ hmem)
    · intro h; exact absurd h hgt

/-- Witness for C4: a first event 15 ms after meter start is forwarded. -/
theorem C4_throttle_witness :
    (send_peaks 0 [(15, [7])]).head? = some (15, current_peak [7]) :=
  ((C4_throttle 0 [(15, [7])]).2.2 15 [7] [] rfl).mpr (by decide)

/-- Counterexample for C4 as stated: the very first value received, arriving
5 ms after the meter starts, is discarded, so the meter does not always
forward the first value. -/
theorem C4_counterexample :
    send_peaks 0 [(5, [100])] = [] ∧ current_peak [100] = 100 := by
  constructor <;> decide

/-! ## C6: totality of the peak computation -/

/-- Claim C6 (code bug): `i16::abs` is not total on i16 — at `-32768` it
overflows (a panic in a build with overflow checks; a wrap-around to
`-32768` in a release build), and with the wrapping semantics the callback's
peak pick reports `1` for the block `[-32768, 1]` even though `-32768` has
the strictly larger magnitude. -/
theorem C6_abs_overflow :
    abs_checked (-32768) = none ∧
    abs_release (-32768) = -32768 ∧
    findPeak [-32768, 1] = some 1 := by
  refine ⟨by decide, by decide, by decide⟩

/-! ## C10: stop() can succeed without finalizing -/

/-- Claim C10 (confirmed): when the writer `Arc` is still shared or its mutex
is poisoned at `stop_recording` time, the finalize step is silently skipped
and `stop_recording` still returns `Ok` with the output path. -/
theorem C10_finalize_skipped (r : Recorder) (env : StopEnv) (p : Nat)
    (hrec : r.is_recording = true) (hpath : r.output_path = some p)
    (hshared : env.arc_unique = false ∨ env.into_inner_ok = false) :
    (stop_recording r env).result = .ok p ∧
    (stop_recording r env).finalized = false := by
  have hand : (env.arc_unique && env.into_inner_ok) = false := by
    rcases hshared with h | h <;> simp [h]
  unfold stop_recording
  rw [hrec]
  simp only [Bool.not_true, Bool.false_eq_true, if_false]
  cases hw : r.writer with
  | none => simp [finishStop, hpath]
  | some w => simp [hand, finishStop, hpath]

/-- Witness for C10. -/
theorem C10_finalize_skipped_witness :
    (stop_recording ⟨true, some 7, some [], true⟩ ⟨false, true, true⟩).result = .ok 7 ∧
    (stop_recording ⟨true, some 7, some [], true⟩ ⟨false, true, true⟩).finalized = false :=
  C10_finalize_skipped ⟨true, some 7, some [], true⟩ ⟨false, true, true⟩ 7
    rfl rfl (Or.inl rfl)

/-! ## C3: write failure halts capture, surfaced at the next stop() -/

/-- Claim C3 (confirmed): when a sample write fails at index `i` of a block,
the callback stores `is_recording = false` and keeps only the samples before
`i` (the write loop breaks); the callback itself returns normally (it is a
total function into `Recorder` with no error channel); every later callback
invocation returns without accepting any sample; and the next
`stop_recording` returns an error rather than `Ok`. -/
theorem C3_write_failure_halts (r : Recorder) (channels : ℕ) (data : List Int)
    (env : CallbackEnv) (i : ℕ) (hrec : r.is_recording = true)
    (hlock : env.lock_ok = true) (hfail : env.fail_at = some i)
    (hi : i < (processBlock channels data).length) :
    (input_callback r channels data env).is_recording = false ∧
    (input_callback r channels data env).writer =
      r.writer.map (· ++ (processBlock channels data).take i) ∧
    (∀ channels2 data2 env2,
      input_callback (input_callback r channels data env) channels2 data2 env2 =
        input_callback r channels data env) ∧
    (∀ senv, (stop_recording (input_callback r channels data env) senv).result =
      .error .notRecording) := by
  have hcb : input_callback r channels data env =
      { r with writer := r.writer.map (· ++ (processBlock channels data).take i),
               is_recording := false } := by
    unfold input_callback
    rw [hrec, hlock, hfail]
    simp [hi]
  refine ⟨by rw [hcb], by rw [hcb], ?_, ?_⟩
  · intro channels2 data2 env2
    rw [hcb]
    unfold input_callback
    simp
  · intro senv
    rw [hcb]
    unfold stop_recording
    simp

/-- Witness for C3: a concrete failing write at index 1 of a mono block. -/
theorem C3_write_failure_halts_witness :
    (input_callback ⟨true, some 7, some [], true⟩ 1 [1, 2, 3] ⟨true, some 1⟩).is_recording = false ∧
    (input_callback ⟨true, some 7, some [], true⟩ 1 [1, 2, 3] ⟨true, some 1⟩).writer =
      (some [] : Option (List Int)).map (· ++ (processBlock 1 [1, 2, 3]).take 1) ∧
    (∀ channels2 data2 env2,
      input_callback (input_callback ⟨true, some 7, some [], true⟩ 1 [1, 2, 3] ⟨true, some 1⟩)
          channels2 data2 env2 =
        input_callback ⟨true, some 7, some [], true⟩ 1 [1, 2, 3] ⟨true, some 1⟩) ∧
    (∀ senv,
      (stop_recording (input_callback ⟨true, some 7, some [], true⟩ 1 [1, 2, 3] ⟨true, some 1⟩)
          senv).result = .error .notRecording) :=
  C3_write_failure_halts ⟨true, some 7, some [], true⟩ 1 [1, 2, 3] ⟨true, some 1⟩ 1
    rfl rfl rfl (by decide)

/-! ## C2: the idle/recording resource invariant -/

/-- Counterexample for C2 as stated: a `start_recording` whose
`build_input_stream` step fails is a reachable failing start, and it leaves
`output_path` and `writer` set while `is_recording` is false, so
`outputTarget`/`frameSink` are `Some` in a non-Recording state and
`isRecording()` disagrees with resource reality. -/
theorem C2_counterexample :
    Reachable ⟨false, some 7, some [], false⟩ ∧
    ¬ stateInvariant ⟨false, some 7, some [], false⟩ := by
  constructor
  · have h := Reachable.startStep Recorder.new 7
      ⟨true, true, 44100, true, true, false, true⟩ Reachable.new
    have e : (start_recording Recorder.new 7
        ⟨true, true, 44100, true, true, false, true⟩).2 =
        ⟨false, some 7, some [], false⟩ := rfl
    exact e ▸ h
  · decide

/-- Claim C2 (corrected): the invariant does hold in every state reachable
through construction, successful starts, successful stops, and callback
invocations that hit no write error. -/
theorem C2_invariant_ok (r : Recorder) (h : ReachableOk r) : stateInvariant r := by
  induction h with
  | new => decide
  | startStep s path env hr hok ih =>
    simp only [start_recording] at hok ⊢
    split_ifs at hok ⊢ with h1 h2 h3 h4 h5 h6 h7 h8
    all_goals simp_all [stateInvariant]
  | callbackStep s channels data env hr hflag ih =>
    obtain ⟨ih1, ih2⟩ := ih
    by_cases hrec : s.is_recording = true
    · by_cases hlock : env.lock_ok = true
      · cases hfa : env.fail_at with
        | none =>
          have hcb : input_callback s channels data env =
              { s with writer := s.writer.map (· ++ processBlock channels data) } := by
            unfold input_callback
            rw [hrec, hlock, hfa]
            simp
          rw [hcb]
          exact ⟨by simpa using ih1, ih2⟩
        | some i =>
          by_cases hi : i < (processBlock channels data).length
          · have hcb : (input_callback s channels data env).is_recording = false := by
              unfold input_callback
              rw [hrec, hlock, hfa]
              simp [hi]
            rw [hcb, hrec] at hflag
            simp at hflag
          · have hcb : input_callback s channels data env =
                { s with writer := s.writer.map (· ++ processBlock channels data) } := by
              unfold input_callback
              rw [hrec, hlock, hfa]
              simp [hi]
            rw [hcb]
            exact ⟨by simpa using ih1, ih2⟩
      · have hcb : input_callback s channels data env = s := by
          unfold input_callback
          rw [hrec]
          simp [hlock]
        rw [hcb]
        exact ⟨ih1, ih2⟩
    · have hcb : input_callback s channels data env = s := by
        unfold input_callback
        simp only [Bool.not_eq_true] at hrec
        simp [hrec]
      rw [hcb]
      exact ⟨ih1, ih2⟩
  | stopStep s env p hr hok ih =>
    unfold stop_recording at hok ⊢
    by_cases hrec : s.is_recording = true
    · rw [hrec] at hok ⊢
      simp only [Bool.not_true, Bool.false_eq_true, if_false] at hok ⊢
      cases hw : s.writer with
      | none =>
        simp only [finishStop] at hok ⊢
        cases hp : s.output_path with
        | none => simp [hw, hp] at hok
        | some q => simp [hw, hp, stateInvariant]
      | some w =>
        by_cases hand : (env.arc_unique && env.into_inner_ok) = true
        · by_cases hfin : env.finalize_ok = true
          · simp only [finishStop] at hok ⊢
            cases hp : s.output_path with
            | none => simp [hw, hp, hand, hfin] at hok
            | some q => simp [hw, hp, hand, hfin, stateInvariant]
          · simp only [finishStop] at hok
            simp [hw, hand, hfin] at hok
        · rw [Bool.not_eq_true] at hand
          simp only [finishStop] at hok ⊢
          cases hp : s.output_path with
          | none => simp [hw, hp, hand] at hok
          | some q => simp [hw, hp, hand, stateInvariant]
    · rw [Bool.not_eq_true] at hrec
      rw [hrec] at hok
      simp at hok

/-- Witness for C2: the freshly constructed recorder satisfies the invariant. -/
theorem C2_invariant_ok_witness : stateInvariant Recorder.new :=
  C2_invariant_ok Recorder.new ReachableOk.new

/-! ## C5: which sample the peak pick reports -/

theorem find?_congr_mem {α : Type} {p q : α → Bool} :
    ∀ l : List α, (∀ x ∈ l, p x = q x) → l.find? p = l.find? q := by
  intro l
  induction l with
  | nil => intro _; rfl
  | cons a t ih =>
    intro h
    rw [List.find?_cons, List.find?_cons, h a (List.mem_cons_self a t)]
    cases q a
    · exact ih (fun x hx => h x (List.mem_cons_of_mem a hx))
    · rfl

theorem foldl_peakStep_some (t : List Int) :
    ∀ b : Int, ∃ c, List.foldl peakStep (some b) t = some c ∧
      (c = b ∨ c ∈ t) ∧ abs_release b ≤ abs_release c ∧
      ∀ y ∈ t, abs_release y ≤ abs_release c := by
  induction t with
  | nil => intro b; exact ⟨b, rfl, Or.inl rfl, le_refl _, by simp⟩
  | cons x t ih =>
    intro b
    simp only [List.foldl_cons]
    by_cases hk : abs_release b ≤ abs_release x
    · have hstep : peakStep (some b) x = some x := by simp [peakStep, hk]
      rw [hstep]
      obtain ⟨c, h1, h2, h3, h4⟩ := ih x
      refine ⟨c, h1, ?_, le_trans hk h3, ?_⟩
      · rcases h2 with h2 | h2
        · exact Or.inr (h2 ▸ List.mem_cons_self x t)
        · exact Or.inr (List.mem_cons_of_mem x h2)
      · intro y hy
        rcases List.mem_cons.mp hy with hy | hy
        · exact hy ▸ h3
        · exact h4 y hy
    · have hstep : peakStep (some b) x = some b := by simp [peakStep, hk]
      rw [hstep]
      obtain ⟨c, h1, h2, h3, h4⟩ := ih b
      refine ⟨c, h1, ?_, h3, ?_⟩
      · rcases h2 with h2 | h2
        · exact Or.inl h2
        · exact Or.inr (List.mem_cons_of_mem x h2)
      · intro y hy
        rcases List.mem_cons.mp hy with hy | hy
        · subst hy
          exact le_trans (le_of_lt (lt_of_not_le hk)) h3
        · exact h4 y hy

theorem findPeak_max (l : List Int) (b : Int) (hb : findPeak l = some b) :
    b ∈ l ∧ ∀ y ∈ l, abs_release y ≤ abs_release b := by
  cases l with
  | nil => simp [findPeak] at hb
  | cons x t =>
    have hstep : findPeak (x :: t) = List.foldl peakStep (some x) t := rfl
    rw [hstep] at hb
    obtain ⟨c, h1, h2, h3, h4⟩ := foldl_peakStep_some t x
    rw [h1] at hb
    injection hb with hb
    subst hb
    constructor
    · rcases h2 with h2 | h2
      · exact h2 ▸ List.mem_cons_self x t
      · exact List.mem_cons_of_mem x h2
    · intro y hy
      rcases List.mem_cons.mp hy with hy | hy
      · exact hy ▸ h3
      · exact h4 y hy

theorem findPeak_ne_none (l : List Int) (hl : l ≠ []) : ∃ b, findPeak l = some b := by
  cases l with
  | nil => exact absurd rfl hl
  | cons x t =>
    obtain ⟨c, h1, _⟩ := foldl_peakStep_some t x
    exact ⟨c, h1⟩

theorem findPeak_append_singleton (l : List Int) (a : Int) :
    findPeak (l ++ [a]) = peakStep (findPeak l) a := by
  simp only [findPeak, List.foldl_append, List.foldl_cons, List.foldl_nil]

theorem specPeakLastKey_append (l : List Int) (a : Int) :
    specPeakLastKey (l ++ [a]) =
      if (l ++ [a]).all (fun y => abs_release y ≤ abs_release a) then some a
      else specPeakLastKey l := by
  unfold specPeakLastKey
  rw [List.reverse_append, List.reverse_singleton, List.singleton_append,
    List.find?_cons]
  by_cases hall : (l ++ [a]).all (fun y => abs_release y ≤ abs_release a) = true
  · simp [hall]
  · have hfa : ((l ++ [a]).all (fun y => abs_release y ≤ abs_release a)) = false := by
      rw [Bool.not_eq_true] at hall
      exact hall
    rw [hfa]
    simp only [Bool.false_eq_true, if_false]
    obtain ⟨y, hy, hygt⟩ : ∃ y ∈ l, abs_release a < abs_release y := by
      have : ¬ ∀ z ∈ l ++ [a], abs_release z ≤ abs_release a := by
        intro hz
        rw [List.all_eq_true.mpr (fun z hzz => decide_eq_true (hz z hzz))] at hfa
        exact Bool.true_eq_false.mp hfa
      push_neg at this
      obtain ⟨y, hy, hygt⟩ := this
      rcases List.mem_append.mp hy with hy | hy
      · exact ⟨y, hy, hygt⟩
      · rw [List.mem_singleton.mp hy] at hygt
        exact absurd (le_refl _) (not_le_of_lt hygt)
    apply find?_congr_mem
    intro x hx
    rw [Bool.eq_iff_iff]
    simp only [List.all_eq_true, decide_eq_true_eq]
    constructor
    · intro h z hz
      exact h z (List.mem_append.mpr (Or.inl hz))
    · intro h z hz
      rcases List.mem_append.mp hz with hz | hz
      · exact h z hz
      · rw [List.mem_singleton.mp hz]
        exact le_trans (le_of_lt hygt) (h y hy)

theorem findPeak_eq_specPeakLastKey : ∀ l : List Int, findPeak l = specPeakLastKey l := by
  intro l
  induction l using List.reverseRecOn with
  | nil => rfl
  | append_singleton l a ih =>
    rw [findPeak_append_singleton, specPeakLastKey_append]
    cases hfp : findPeak l with
    | none =>
      have hnil : l = [] := by
        by_contra hne
        obtain ⟨b, hb⟩ := findPeak_ne_none l hne
        rw [hfp] at hb
        exact Option.noConfusion hb
      subst hnil
      simp [peakStep]
    | some b =>
      obtain ⟨hbmem, hbmax⟩ := findPeak_max l b hfp
      by_cases hk : abs_release b ≤ abs_release a
      · have hall : ((l ++ [a]).all (fun y => abs_release y ≤ abs_release a)) = true := by
          rw [List.all_eq_true]
          intro z hz
          rcases List.mem_append.mp hz with hz | hz
          · exact decide_eq_true (le_trans (hbmax z hz) hk)
          · rw [List.mem_singleton.mp hz]
            exact decide_eq_true (le_refl _)
        rw [hall]
        simp [peakStep, hk]
      · have hall : ((l ++ [a]).all (fun y => abs_release y ≤ abs_release a)) = false := by
          rw [Bool.eq_false_iff]
          intro hcon
          rw [List.all_eq_true] at hcon
          have := hcon b (List.mem_append.mpr (Or.inl hbmem))
          exact hk (decide_eq_true_eq.mp this)
        rw [hall]
        simp only [Bool.false_eq_true, if_false]
        rw [← ih, hfp]
        simp [peakStep, hk]

/-- Claim C5 (corrected): for a non-empty block containing no `-32768`, the
callback's peak pick does report a maximum-magnitude sample, but ties are
broken by the LAST occurrence in iteration order, not the first: the result
is the first element of the reversed block whose magnitude dominates the
block. -/
theorem C5_peak_last_occurrence (samples : List Int) (hne : samples ≠ [])
    (hsafe : ∀ x ∈ samples, x ≠ -32768) :
    findPeak samples = specPeakLast samples ∧
    ∃ p, findPeak samples = some p ∧ p ∈ samples ∧
      ∀ y ∈ samples, y.natAbs ≤ p.natAbs := by
  have hkey : ∀ x ∈ samples, abs_release x = (x.natAbs : Int) := by
    intro x hx
    unfold abs_release
    rw [if_neg (hsafe x hx)]
  constructor
  · rw [findPeak_eq_specPeakLastKey]
    unfold specPeakLastKey specPeakLast
    apply find?_congr_mem
    intro x hx
    have hxmem : x ∈ samples := List.mem_reverse.mp hx
    rw [Bool.eq_iff_iff]
    simp only [List.all_eq_true, decide_eq_true_eq]
    constructor
    · intro h z hz
      have := h z hz
      rw [hkey z hz, hkey x hxmem] at this
      exact_mod_cast this
    · intro h z hz
      rw [hkey z hz, hkey x hxmem]
      exact_mod_cast h z hz
  · obtain ⟨p, hp⟩ := findPeak_ne_none samples hne
    obtain ⟨hmem, hmax⟩ := findPeak_max samples p hp
    refine ⟨p, hp, hmem, ?_⟩
    intro y hy
    have := hmax y hy
    rw [hkey y hy, hkey p hmem] at this
    exact_mod_cast this

/-- Witness for C5: the block `[5, -5]` reports `-5`, the last of the two
maximum-magnitude samples. -/
theorem C5_peak_last_occurrence_witness :
    findPeak [5, -5] = specPeakLast [5, -5] ∧
    ∃ p, findPeak [5, -5] = some p ∧ p ∈ ([5, -5] : List Int) ∧
      ∀ y ∈ ([5, -5] : List Int), y.natAbs ≤ p.natAbs :=
  C5_peak_last_occurrence [5, -5] (by decide) (by decide)

/-- Counterexample for C5 as stated: on `[5, -5]` the code reports `-5` (the
last maximum-magnitude sample) while the claim's first-occurrence rule picks
`5`. -/
theorem C5_counterexample :
    findPeak [5, -5] = some (-5) ∧
    specPeakFirst [5, -5] = some 5 ∧
    (some (-5) : Option Int) ≠ some 5 := by
  refine ⟨by decide, by decide, by decide⟩

/-! ## C8: the channel-conversion policy -/

/-- Claim C8 (confirmed): channel conversion follows the fixed policy — the
two concrete examples of the specification, N→1 (N ≥ 2) per-frame arithmetic
mean, 1→2 duplication, and pass-through for every mapping not matched by the
three arms. -/
theorem C8_channel_policy :
    (convert_channels [[1, 1/2, -1/2], [-1, 1/2, 1/2]] 1 = [[0, 1/2, 0]]) ∧
    (convert_channels [[(1 : ℚ), 1/2, -1/2]] 2 =
      [[1, 1/2, -1/2], [1, 1/2, -1/2]]) ∧
    (∀ chans : List (List ℚ), 2 ≤ chans.length →
      convert_channels chans 1 =
        [(List.range ((chans.headD []).length)).map (fun i =>
          (chans.map (fun ch => ch.getD i 0)).sum / (chans.length : ℚ))]) ∧
    (∀ ch : List ℚ, convert_channels [ch] 2 = [ch, ch]) ∧
    (∀ (chans : List (List ℚ)) (t : ℕ),
      ¬(chans.length = 2 ∧ t = 1) → ¬(chans.length = 1 ∧ t = 2) →
      ¬(2 < chans.length ∧ t = 1) → convert_channels chans t = chans) := by
  refine ⟨?_, ?_, ?_, ?_, ?_⟩
  · simp [convert_channels, List.range_succ]
    norm_num
  · simp [convert_channels]
  · intro chans hlen
    rcases eq_or_lt_of_le hlen with h2 | h2
    · obtain ⟨c0, c1, rfl⟩ := List.length_eq_two.mp h2.symm
      unfold convert_channels
      rw [if_pos (by simp)]
      congr 1
      apply List.map_congr_left
      intro i _
      simp only [List.getD_cons_zero, List.getD_cons_succ, List.map_cons,
        List.map_nil, List.sum_cons, List.sum_nil, List.length_cons,
        List.length_nil]
      push_cast
      ring
    · unfold convert_channels
      rw [if_neg (by omega), if_neg (by omega), if_pos (by omega)]
  · intro ch
    simp [convert_channels]
  · intro chans t h1 h2 h3
    unfold convert_channels
    rw [if_neg h1, if_neg h2, if_neg h3]

/-- Witness for C8: three channels average to their per-frame mean. -/
theorem C8_channel_policy_witness :
    convert_channels [[(6 : ℚ)], [3], [3]] 1 =
      [(List.range (([[(6 : ℚ)], [3], [3]].headD []).length)).map (fun i =>
        (([[(6 : ℚ)], [3], [3]] : List (List ℚ)).map (fun ch => ch.getD i 0)).sum /
          (([[(6 : ℚ)], [3], [3]] : List (List ℚ)).length : ℚ))] :=
  C8_channel_policy.2.2.1 [[(6 : ℚ)], [3], [3]] (by decide)

/-! ## C9: channel count after conversion, and re-interleaving -/

theorem optionMapM_isSome {α β : Type} (f : α → Option β) :
    ∀ l : List α, (l.mapM f).isSome = true ↔ ∀ a ∈ l, (f a).isSome = true := by
  intro l
  rw [← List.mapM'_eq_mapM]
  induction l with
  | nil => simp [List.mapM']
  | cons a t ih =>
    simp only [List.mapM']
    constructor
    · intro h x hx
      cases hfa : f a with
      | none => rw [hfa] at h; simp at h
      | some b =>
        cases hmt : List.mapM' f t with
        | none => rw [hfa, hmt] at h; simp at h
        | some bs =>
          rcases List.mem_cons.mp hx with hx | hx
          · subst hx; simp [hfa]
          · exact (ih.mp (by simp [hmt])) x hx
    · intro h
      obtain ⟨b, hb⟩ := Option.isSome_iff_exists.mp (h a (List.mem_cons_self a t))
      obtain ⟨bs, hbs⟩ := Option.isSome_iff_exists.mp
        (ih.mpr (fun x hx => h x (List.mem_cons_of_mem a hx)))
      simp [hb, hbs]

/-- Claim C9 (corrected): the converted buffer has exactly `targetChannels`
entries only for the handled mappings (exact match, N→1 with N ≥ 2, 1→2);
re-interleaving is well defined whenever the target channel count does not
exceed the buffer's channel count and the channels have equal length — but
not in general. -/
theorem C9_channel_count (chans : List (List ℚ)) (t : ℕ)
    (hmap : chans.length = t ∨ (2 ≤ chans.length ∧ t = 1) ∨
      (chans.length = 1 ∧ t = 2))
    (hne : chans ≠ []) (hle : t ≤ (convert_channels chans t).length)
    (heq : ∀ ch ∈ convert_channels chans t,
      ch.length = ((convert_channels chans t).headD []).length) :
    (convert_channels chans t).length = t ∧
    (interleave t (convert_channels chans t)).isSome = true := by
  constructor
  · unfold convert_channels
    split_ifs with h1 h2 h3
    all_goals simp_all
    all_goals omega
  · have hcne : convert_channels chans t ≠ [] := by
      unfold convert_channels
      split_ifs
      · exact List.cons_ne_nil _ _
      · exact List.cons_ne_nil _ _
      · exact List.cons_ne_nil _ _
      · exact hne
    obtain ⟨c0, rest, hc⟩ := List.exists_cons_of_ne_nil hcne
    unfold interleave
    rw [hc]
    simp only [List.get?]
    rw [Option.isSome_map']
    rw [optionMapM_isSome]
    intro f hf
    unfold frameAt
    rw [optionMapM_isSome]
    intro c hcmem
    have hct : c < t := List.mem_range.mp hcmem
    have hcl : c < (convert_channels chans t).length := by
      omega
    cases hg : (convert_channels chans t).get? c with
    | none =>
      rw [List.get?_eq_none] at hg
      omega
    | some ch =>
      rw [hc] at hg
      rw [hg, Option.some_bind]
      have hchmem : ch ∈ convert_channels chans t := by
        rw [hc]
        exact List.get?_mem hg
      have hchlen : ch.length = c0.length := by
        have := heq ch hchmem
        rw [hc] at this
        simpa using this
      have hflt : f < c0.length := List.mem_range.mp hf
      cases hgf : ch.get? f with
      | none =>
        rw [List.get?_eq_none] at hgf
        omega
      | some v => simp

/-- Witness for C9: a stereo buffer re-interleaved to stereo. -/
theorem C9_channel_count_witness :
    (convert_channels [[(1 : ℚ), 2], [3, 4]] 2).length = 2 ∧
    (interleave 2 (convert_channels [[(1 : ℚ), 2], [3, 4]] 2)).isSome = true :=
  C9_channel_count [[(1 : ℚ), 2], [3, 4]] 2 (Or.inl rfl) (by decide)
    (by norm_num [convert_channels]) (by norm_num [convert_channels])

/-- Counterexample for C9 as stated: a mono buffer converted to 3 channels
passes through with 1 entry, not 3, and the re-interleaving step indexes a
missing channel (the Rust code panics; the model returns `none`) — both in
isolation and inside the full pipeline. -/
theorem C9_counterexample :
    convert_channels [[(1 : ℚ)]] 3 = [[1]] ∧
    (convert_channels [[(1 : ℚ)]] 3).length ≠ 3 ∧
    interleave 3 (convert_channels [[(1 : ℚ)]] 3) = none ∧
    resample_wav_pipeline (fun l => l) [(1 : ℚ)] 8000 1 8000 3 = none := by
  refine ⟨by simp [convert_channels], by simp [convert_channels], ?_, ?_⟩
  · simp only [convert_channels]
    norm_num
    rfl
  · simp [resample_wav_pipeline, deinterleave, channelOf, everyNth,
      convert_channels, List.range_succ]
    rfl

/-! ## C7: identity resampling -/

theorem optionMapM_congr {α β : Type} {f g : α → Option β} :
    ∀ l : List α, (∀ a ∈ l, f a = g a) → l.mapM f = l.mapM g := by
  intro l
  rw [← List.mapM'_eq_mapM, ← List.mapM'_eq_mapM]
  induction l with
  | nil => intro _; rfl
  | cons a t ih =>
    intro h
    simp only [List.mapM']
    rw [h a (List.mem_cons_self a t),
      ih (fun x hx => h x (List.mem_cons_of_mem a hx))]

theorem optionMapM_some {α β : Type} (h : α → β) :
    ∀ l : List α, l.mapM (fun a => some (h a)) = some (l.map h) := by
  intro l
  rw [← List.mapM'_eq_mapM]
  induction l with
  | nil => rfl
  | cons a t ih => simp [List.mapM', ih]

theorem optionMapM_map {α β γ : Type} (g : α → β) (f : β → Option γ) :
    ∀ l : List α, (l.map g).mapM f = l.mapM (f ∘ g) := by
  intro l
  rw [← List.mapM'_eq_mapM, ← List.mapM'_eq_mapM]
  induction l with
  | nil => rfl
  | cons a t ih =>
    simp only [List.map_cons, List.mapM', ih]
    rfl

theorem range_map_getD :
    ∀ l : List ℚ, (List.range l.length).map (fun i => l.getD i 0) = l := by
  intro l
  induction l with
  | nil => simp
  | cons a t ih =>
    rw [List.length_cons, List.range_succ_eq_map, List.map_cons,
      List.getD_cons_zero, List.map_map]
    have hcomp : ((fun i => (a :: t).getD i 0) ∘ Nat.succ) =
        (fun i => t.getD i 0) := by
      funext i
      simp [List.getD_cons_succ]
    rw [hcomp, ih]

theorem channelOf_append (f0 rest : List ℚ) (c k : ℕ) (hf0 : f0.length = c)
    (hk : k < c) :
    channelOf c k (f0 ++ rest) = f0.getD k 0 :: channelOf c k rest := by
  unfold channelOf
  have hkf : k < f0.length := by omega
  rw [List.drop_append_of_le_length (by omega),
    List.drop_eq_getElem_cons hkf, List.cons_append]
  simp only [everyNth]
  rw [List.getD_eq_getElem f0 0 hkf]
  rw [List.drop_append_eq_append_drop]
  have h1 : (f0.drop (k + 1)).drop (c - 1) = [] := by
    apply List.drop_eq_nil_of_le
    rw [List.length_drop]
    omega
  have h2 : (c - 1) - (f0.drop (k + 1)).length = k := by
    rw [List.length_drop]
    omega
  rw [h1, h2, List.nil_append]

theorem deinterleave_append (f0 rest : List ℚ) (c : ℕ) (hf0 : f0.length = c) :
    deinterleave c (f0 ++ rest) =
      (List.range c).map (fun k => f0.getD k 0 :: channelOf c k rest) := by
  unfold deinterleave
  apply List.map_congr_left
  intro k hk
  exact channelOf_append f0 rest c k hf0 (List.mem_range.mp hk)

theorem interleave_eq (c : ℕ) (hc : 0 < c) (g : ℕ → List ℚ) :
    interleave c ((List.range c).map g) =
      ((List.range ((g 0).length)).mapM
        (frameAt ((List.range c).map g) c)).map List.flatten := by
  unfold interleave
  rw [List.get?_map, List.get?_range hc]
  rfl

theorem interleave_deinterleave (c : ℕ) (hc : 0 < c) :
    ∀ (n : ℕ) (xs : List ℚ), xs.length = c * n →
      interleave c (deinterleave c xs) = some xs := by
  intro n
  induction n with
  | zero =>
    intro xs hxs
    rw [Nat.mul_zero, List.length_eq_zero] at hxs
    subst hxs
    unfold deinterleave
    rw [interleave_eq c hc]
    have h0 : channelOf c 0 ([] : List ℚ) = [] := by
      simp [channelOf, everyNth]
    simp only [h0, List.length_nil, List.range_zero, List.mapM_nil]
    rfl
  | succ n ih =>
    intro xs hxs
    have hcle : c ≤ xs.length := by
      rw [hxs, Nat.mul_succ]
      omega
    have hxseq : xs.take c ++ xs.drop c = xs := List.take_append_drop c xs
    have hf0 : (xs.take c).length = c := by
      rw [List.length_take]
      omega
    have hrest : (xs.drop c).length = c * n := by
      rw [List.length_drop, hxs, Nat.mul_succ]
      omega
    have hIH := ih (xs.drop c) hrest
    unfold deinterleave at hIH
    rw [interleave_eq c hc] at hIH
    obtain ⟨F, hF, hFflat⟩ := Option.map_eq_some'.mp hIH
    conv_lhs => rw [← hxseq]
    rw [deinterleave_append (xs.take c) (xs.drop c) c hf0,
      interleave_eq c hc]
    have hframe0 :
        frameAt ((List.range c).map
          (fun k => (xs.take c).getD k 0 :: channelOf c k (xs.drop c))) c 0 =
        some (xs.take c) := by
      unfold frameAt
      rw [optionMapM_congr (List.range c)
        (g := fun cix => some ((xs.take c).getD cix 0))]
      · rw [optionMapM_some]
        have hr := range_map_getD (xs.take c)
        rw [hf0] at hr
        exact congrArg some hr
      · intro cix hcix
        rw [List.get?_map, List.get?_range (List.mem_range.mp hcix)]
        rfl
    have hframes : ∀ fidx,
        frameAt ((List.range c).map
          (fun k => (xs.take c).getD k 0 :: channelOf c k (xs.drop c))) c
          (Nat.succ fidx) =
        frameAt ((List.range c).map (fun k => channelOf c k (xs.drop c))) c
          fidx := by
      intro fidx
      unfold frameAt
      apply optionMapM_congr
      intro cix hcix
      rw [List.get?_map, List.get?_range (List.mem_range.mp hcix),
        List.get?_map, List.get?_range (List.mem_range.mp hcix)]
      rfl
    have hcomp :
        (frameAt ((List.range c).map
          (fun k => (xs.take c).getD k 0 :: channelOf c k (xs.drop c))) c ∘
            Nat.succ) =
        frameAt ((List.range c).map (fun k => channelOf c k (xs.drop c))) c := by
      funext fidx
      simp only [Function.comp]
      exact hframes fidx
    simp only [List.length_cons]
    rw [List.range_succ_eq_map, List.mapM_cons, optionMapM_map, hcomp]
    rw [hframe0, hF]
    simp only [Option.pure_def, Option.bind_eq_bind, Option.some_bind,
      Option.map_some', List.flatten_cons]
    rw [hFflat, hxseq]

/-- Claim C7 (confirmed): with identity sample rate and identity channel
count, the float pipeline of `resample_wav_file` returns the input signal
unchanged — for every band-limited interpolation kernel `sinc`, i.e. the
rate-conversion step is never consulted — and the written output is exactly
the input after the final 16-bit quantization. -/
theorem C7_identity_resample (sinc : List ℚ → List ℚ) (x : List ℚ) (r c : ℕ)
    (hc : 0 < c) (hdvd : c ∣ x.length) :
    resample_wav_pipeline sinc x r c r c = some x ∧
    resample_wav_output sinc x r c r c = some (x.map quantize16) := by
  obtain ⟨n, hn⟩ := hdvd
  have hpipe : resample_wav_pipeline sinc x r c r c = some x := by
    simp only [resample_wav_pipeline, ne_eq, eq_self_iff_true, not_true,
      if_false]
    exact interleave_deinterleave c hc n x hn
  refine ⟨hpipe, ?_⟩
  unfold resample_wav_output
  rw [hpipe]
  rfl

/-- Witness for C7: a two-channel four-sample signal at equal rates. -/
theorem C7_identity_resample_witness :
    resample_wav_pipeline (fun l => l) [(1 : ℚ), 1/2, -1/2, 0] 44100 2 44100 2 =
      some [(1 : ℚ), 1/2, -1/2, 0] ∧
    resample_wav_output (fun l => l) [(1 : ℚ), 1/2, -1/2, 0] 44100 2 44100 2 =
      some ([(1 : ℚ), 1/2, -1/2, 0].map quantize16) :=
  C7_identity_resample (fun l => l) [(1 : ℚ), 1/2, -1/2, 0] 44100 2
    (by decide) (by decide)

end VoiceKeyboard
